import Mathlib

/-!
# Particle store of `rebound` (`src/particle.c`)

A shallow embedding of the particle routines of `particle.c` and the
properties of the particle store that follow from them.

Modelling conventions.

* C `int` values are mathematical integers (`Int`). The counters of the store
  are taken without overflow; in `reb_get_rootbox_for_particle` every `int`
  result is checked against `INT_MIN .. INT_MAX` and the routine has no result
  (`none`) where C leaves the operation undefined.
* C `double` values are the rationals (`ℚ`) that are finite binary64 values.
  Radii and coordinates are only copied and compared. The arithmetic of
  `reb_get_rootbox_for_particle` rounds the result of every `double` operation
  to binary64 (round to nearest, ties to even, `reb_double`); a result that is
  not finite leaves the routine without a result.
* The particle array `r->particles` is a map from slot index to particle.
  Every integer index has a slot; the size of the allocation is the scalar
  `allocatedN`, and `realloc` keeps the contents of all slots.
* The routines are compiled in their default configuration: `COLLISIONS_NONE`,
  `GRAVITY_GRAPE` and `MPI` are not defined.
* Diagnostics written to `stderr` do not change the context; those of
  `reb_add` are recorded separately by `reb_add_stderr`.
* The slots of the particle array that `reb_remove` reads and writes are
  recorded by the instrumented copy `reb_remove_traced`.
-/

namespace Rebound

/-- Vector of three doubles (`struct reb_vec3d`). -/
structure reb_vec3d where
  x : ℚ
  y : ℚ
  z : ℚ
deriving DecidableEq

/-- One body (`struct reb_particle`): position, velocity, acceleration, mass,
radius and the optional identifier. -/
structure reb_particle where
  x : ℚ
  y : ℚ
  z : ℚ
  vx : ℚ
  vy : ℚ
  vz : ℚ
  ax : ℚ
  ay : ℚ
  az : ℚ
  m : ℚ
  r : ℚ
  ID : Int
deriving DecidableEq

/-- The zero-initialised particle, `struct reb_particle p = {0}`. -/
def reb_particle.zero : reb_particle :=
  ⟨0, 0, 0, 0, 0, 0, 0, 0, 0, 0, 0, 0⟩

instance : Inhabited reb_particle := ⟨reb_particle.zero⟩

/-- Gravity variant of the context. The routines only ask whether it is the
tree variant `RB_GT_TREE`; every other variant is `RB_GT_OTHER`. -/
inductive reb_gravity where
  | RB_GT_TREE
  | RB_GT_OTHER
deriving DecidableEq

/-- Collision-search variant of the context. The routines only ask whether it
is the tree variant `RB_CT_TREE`; every other variant is `RB_CT_OTHER`. -/
inductive reb_collision where
  | RB_CT_TREE
  | RB_CT_OTHER
deriving DecidableEq

/-- The simulation context (`struct reb_context`), restricted to the fields
that `particle.c` reads or writes. `max_radius` is the pair
`(max_radius[0], max_radius[1])`. The field `tree` stands for the spatial
partition: it records, in order, the indices handed to
`reb_tree_add_particle_to_tree`. -/
structure reb_context where
  N : Int
  allocatedN : Int
  N_active : Int
  N_megno : Int
  particles : Int → reb_particle
  max_radius : ℚ × ℚ
  gravity : reb_gravity
  collision : reb_collision
  root_size : ℚ
  boxsize : reb_vec3d
  root_nx : Int
  root_ny : Int
  root_nz : Int
  tree : List Int

/-- Modelled from the spec: `reb_boundary_particle_is_in_box` is declared in
`boundary.h`, which is not part of the sources. Containment is half-open on
every axis: the lower edge `-boxsize/2` is inside, the upper edge `boxsize/2`
is outside. Returns `1` for inside and `0` for outside. -/
def reb_boundary_particle_is_in_box (r : reb_context) (pt : reb_particle) : Int :=
  if -(r.boxsize.x / 2) ≤ pt.x ∧ pt.x < r.boxsize.x / 2 ∧
     -(r.boxsize.y / 2) ≤ pt.y ∧ pt.y < r.boxsize.y / 2 ∧
     -(r.boxsize.z / 2) ≤ pt.z ∧ pt.z < r.boxsize.z / 2
  then 1 else 0

/-- Modelled from the spec: `reb_tree_add_particle_to_tree` is declared in
`tree.h`, which is not part of the sources. The spatial partition holds
indices into the particle array only, so inserting index `pt` appends it to the
record of inserted indices and touches nothing else. -/
def reb_tree_add_particle_to_tree (r : reb_context) (pt : Int) : reb_context :=
  { r with tree := r.tree ++ [pt] }

/-- The growth loop of `reb_add_local`:
`while (allocatedN <= N) allocatedN += 128;` — returns the final `allocatedN`. -/
def reb_add_local_grow (allocatedN N : Int) : Int :=
  if allocatedN ≤ N then reb_add_local_grow (allocatedN + 128) N else allocatedN
termination_by (N + 1 - allocatedN).toNat
decreasing_by omega

/-- `reb_add_local`: reject a particle outside the box; otherwise grow the
allocation in chunks of 128 until `allocatedN > N`, store the particle in slot
`N`, insert index `N` into the tree when gravity or collision is the tree
variant, and increment `N`. -/
def reb_add_local (r : reb_context) (pt : reb_particle) : reb_context :=
  if reb_boundary_particle_is_in_box r pt = 0 then r
  else
    let r1 := { r with allocatedN := reb_add_local_grow r.allocatedN r.N }
    let r2 := { r1 with particles := Function.update r1.particles r1.N pt }
    let r3 :=
      if r2.gravity = reb_gravity.RB_GT_TREE ∨ r2.collision = reb_collision.RB_CT_TREE
      then reb_tree_add_particle_to_tree r2 r2.N else r2
    { r3 with N := r3.N + 1 }

/-- The radius-cache update at the head of `reb_add`, on the pair
`(max_radius[0], max_radius[1])` and the radius `pr` of the new particle. -/
def reb_add_max_radius (mr : ℚ × ℚ) (pr : ℚ) : ℚ × ℚ :=
  if pr ≥ mr.1 then (pr, mr.1)
  else if pr ≥ mr.2 then (mr.1, pr)
  else mr

/-- `reb_add`: update the two-largest-radius cache with `pt.r`, then hand the
particle to `reb_add_local`. -/
def reb_add (r : reb_context) (pt : reb_particle) : reb_context :=
  let r1 := { r with max_radius := reb_add_max_radius r.max_radius pt.r }
  reb_add_local r1 pt

/-- `reb_add_fixed`: reject a particle outside the box; otherwise write it into
slot `pos` and insert `pos` into the tree when gravity or collision is the tree
variant. -/
def reb_add_fixed (r : reb_context) (pt : reb_particle) (pos : Int) : reb_context :=
  if reb_boundary_particle_is_in_box r pt = 0 then r
  else
    let r1 := { r with particles := Function.update r.particles pos pt }
    if r1.gravity = reb_gravity.RB_GT_TREE ∨ r1.collision = reb_collision.RB_CT_TREE
    then reb_tree_add_particle_to_tree r1 pos else r1

/-- Round a rational to the nearest integer, ties to the even neighbour. -/
def reb_round_half_even (q : ℚ) : Int :=
  if q - ⌊q⌋ < 1 / 2 then ⌊q⌋
  else if 1 / 2 < q - ⌊q⌋ then ⌊q⌋ + 1
  else if ⌊q⌋ % 2 = 0 then ⌊q⌋ else ⌊q⌋ + 1

/-- Exponent of the spacing of the binary64 values around `q`: 52 places below
the leading binary digit of `q`, and never below the subnormal spacing
`2 ^ (-1074)`. -/
def reb_double_ulp (q : ℚ) : Int :=
  max (Int.log 2 |q| - 52) (-1074)

/-- The binary64 value nearest to `q` (ties to even), before the overflow
check: `q` is rounded to a whole multiple of the spacing at `q`. -/
def reb_double_round (q : ℚ) : ℚ :=
  (reb_round_half_even (q / (2 : ℚ) ^ reb_double_ulp q) : ℚ) * (2 : ℚ) ^ reb_double_ulp q

/-- Result of a `double` operation whose exact value is `q`: the nearest
binary64 value, or nothing when that value is not finite (magnitude `2 ^ 1024`
or more). -/
def reb_double (q : ℚ) : Option ℚ :=
  if |reb_double_round q| < 2 ^ 1024 then some (reb_double_round q) else none

/-- The rational `q` is a finite binary64 value. -/
def reb_is_double (q : ℚ) : Prop := reb_double q = some q

instance (q : ℚ) : Decidable (reb_is_double q) := by
  unfold reb_is_double
  infer_instance

/-- Result of an `int` operation or conversion whose exact value is `z`: the
value when it lies in `INT_MIN .. INT_MAX`, nothing otherwise (undefined in
C). -/
def reb_int (z : Int) : Option Int :=
  if -2 ^ 31 ≤ z ∧ z < 2 ^ 31 then some z else none

/-- C's `a % n` on `int`: the truncating remainder (`Int.tmod`); nothing for
`n == 0` and for `INT_MIN % -1`, which C leaves undefined. -/
def reb_int_rem (a n : Int) : Option Int :=
  if n = 0 ∨ (a = -2 ^ 31 ∧ n = -1) then none else some (Int.tmod a n)

/-- One axis of `reb_get_rootbox_for_particle`, the expression
`((int)floor((x + b/2.)/rs) + n) % n` with `x` the coordinate, `b` the box
size, `rs` the root size and `n` the root-box count of the axis. The halving,
the sum and the quotient are `double` operations; a zero `rs` gives a quotient
that is not finite; `floor` is exact on a `double`; the conversion to `int`,
the sum with `n` and the remainder are `int` operations. -/
def reb_get_rootbox_axis (x b rs : ℚ) (n : Int) : Option Int :=
  (reb_double (b / 2)).bind fun h =>
  (reb_double (x + h)).bind fun s =>
  (if rs = 0 then none else reb_double (s / rs)).bind fun q =>
  (reb_int ⌊q⌋).bind fun f =>
  (reb_int (f + n)).bind fun t =>
  reb_int_rem t n

/-- `reb_get_rootbox_for_particle`: the index of the root box of a position,
`0` when `root_size == -1`, otherwise `(k*root_ny+j)*root_nx+i` from the three
per-axis indices, each product and sum an `int` operation. -/
def reb_get_rootbox_for_particle (r : reb_context) (pt : reb_particle) : Option Int :=
  if r.root_size = -1 then some 0
  else
    (reb_get_rootbox_axis pt.x r.boxsize.x r.root_size r.root_nx).bind fun i =>
    (reb_get_rootbox_axis pt.y r.boxsize.y r.root_size r.root_ny).bind fun j =>
    (reb_get_rootbox_axis pt.z r.boxsize.z r.root_size r.root_nz).bind fun k =>
    (reb_int (k * r.root_ny)).bind fun a =>
    (reb_int (a + j)).bind fun b =>
    (reb_int (b * r.root_nx)).bind fun c =>
    reb_int (c + i)

/-- `reb_remove_all`: reset the counters and release the particle array (no
slot holds data afterwards). -/
def reb_remove_all (r : reb_context) : reb_context :=
  { r with N := 0, allocatedN := 0, N_active := -1, N_megno := 0,
           particles := fun _ => default }

/-- The shifting loop of `reb_remove`:
`for (j = index; j < N; j++) particles[j] = particles[j+1];` — `j` is the
current loop variable, `N` the already decremented count. -/
def reb_remove_shift (particles : Int → reb_particle) (j N : Int) : Int → reb_particle :=
  if j < N then reb_remove_shift (Function.update particles j (particles (j + 1))) (j + 1) N
  else particles
termination_by (N - j).toNat
decreasing_by omega

/-- `reb_remove`: returns the context afterwards and the C return value. The
checks run in the order of the source: `N == 1`, then `index >= N`, then
`N_megno`. -/
def reb_remove (r : reb_context) (index keepSorted : Int) : reb_context × Int :=
  if r.N = 1 then (r, 1)
  else if index ≥ r.N then (r, 0)
  else if r.N_megno ≠ 0 then (r, 0)
  else
    let r1 := { r with N := r.N - 1 }
    if keepSorted ≠ 0 then
      ({ r1 with particles := reb_remove_shift r1.particles index r1.N }, 1)
    else
      ({ r1 with particles := Function.update r1.particles index (r1.particles r1.N) }, 1)

/-- The two diagnostics of the add path: the warning of `reb_add` when
`megno_init()` has been called, and the warning of `reb_add_local` for a
particle outside the box. -/
inductive reb_add_warning where
  | after_megno_init
  | outside_box
deriving DecidableEq

/-- What a call of `reb_add` writes to `stderr`, in order: the MEGNO warning
when `N_megno` is non-zero, then the warning of `reb_add_local` when the
particle is outside the box. -/
def reb_add_stderr (r : reb_context) (pt : reb_particle) : List reb_add_warning :=
  (if r.N_megno ≠ 0 then [reb_add_warning.after_megno_init] else []) ++
    (if reb_boundary_particle_is_in_box r pt = 0 then [reb_add_warning.outside_box] else [])

/-- One access to the particle array: a read or a write of a slot. -/
inductive reb_access where
  | read (slot : Int)
  | write (slot : Int)
deriving DecidableEq

/-- The slot an access addresses. -/
def reb_access.slot : reb_access → Int
  | reb_access.read s => s
  | reb_access.write s => s

/-- The shifting loop of `reb_remove` with its array accesses: each iteration
`particles[j] = particles[j+1]` reads slot `j + 1` and writes slot `j`. -/
def reb_remove_shift_traced (particles : Int → reb_particle) (j N : Int) :
    (Int → reb_particle) × List reb_access :=
  if j < N then
    let rest := reb_remove_shift_traced (Function.update particles j (particles (j + 1))) (j + 1) N
    (rest.1, reb_access.read (j + 1) :: reb_access.write j :: rest.2)
  else (particles, [])
termination_by (N - j).toNat
decreasing_by omega

/-- `reb_remove` with its array accesses: the result of `reb_remove` together
with the list of slots of `r->particles` read and written, in order. The
guards access no slot; `particles[index] = particles[N]` reads slot `N` (the
decremented count) and writes slot `index`. -/
def reb_remove_traced (r : reb_context) (index keepSorted : Int) :
    (reb_context × Int) × List reb_access :=
  if r.N = 1 then ((r, 1), [])
  else if index ≥ r.N then ((r, 0), [])
  else if r.N_megno ≠ 0 then ((r, 0), [])
  else
    let r1 := { r with N := r.N - 1 }
    if keepSorted ≠ 0 then
      let sh := reb_remove_shift_traced r1.particles index r1.N
      (({ r1 with particles := sh.1 }, 1), sh.2)
    else
      (({ r1 with particles := Function.update r1.particles index (r1.particles r1.N) }, 1),
        [reb_access.read r1.N, reb_access.write index])

/-- The populated part of the particle array: slots `0 .. N-1` in order. -/
def reb_context.populated (r : reb_context) : List reb_particle :=
  (List.range r.N.toNat).map (fun i : Nat => r.particles (Int.ofNat i))

/-- One call of an insert sequence: `reb_add` or `reb_add_local`, with its
particle. -/
inductive reb_add_call where
  | add (pt : reb_particle)
  | add_local (pt : reb_particle)

/-- The particle handed to a call. -/
def reb_add_call.pt : reb_add_call → reb_particle
  | reb_add_call.add pt => pt
  | reb_add_call.add_local pt => pt

/-- Run one call of an insert sequence. -/
def reb_add_call.run (r : reb_context) : reb_add_call → reb_context
  | reb_add_call.add pt => reb_add r pt
  | reb_add_call.add_local pt => reb_add_local r pt

/-- Number of calls of the sequence that succeed, i.e. whose particle is inside
the box of the context the call runs in. -/
def reb_add_call.succeeded : reb_context → List reb_add_call → Nat
  | _, [] => 0
  | r, c :: cs =>
    (if reb_boundary_particle_is_in_box r c.pt = 0 then 0 else 1) +
      reb_add_call.succeeded (c.run r) cs

/-- The largest and the second largest entry of a list of radii, counted with
multiplicity; `0` stands in where the list has fewer than one, respectively
two, entries. -/
def reb_two_largest (radii : List ℚ) : ℚ × ℚ :=
  ((radii.insertionSort (· ≥ ·)).getD 0 0, (radii.insertionSort (· ≥ ·)).getD 1 0)

/-- An empty store in a box of size `2 × 1 × 1` made of two root boxes of size
`1` along `x`, as set up by `reb_configure_box(r, 1., 2, 1, 1)`. -/
def reb_example_context : reb_context :=
  { N := 0, allocatedN := 0, N_active := -1, N_megno := 0,
    particles := fun _ => default, max_radius := (0, 0),
    gravity := reb_gravity.RB_GT_OTHER, collision := reb_collision.RB_CT_OTHER,
    root_size := 1, boxsize := ⟨2, 1, 1⟩, root_nx := 2, root_ny := 1, root_nz := 1,
    tree := [] }

/-- A particle at `(x, 0, 0)` with radius `rad`, all other fields zero. -/
def reb_example_particle (x rad : ℚ) : reb_particle :=
  { reb_particle.zero with x := x, r := rad }

/-- A store of `n` particles: `reb_example_context` with `N = n`, capacity 128
and slot `i` holding the particle with identifier `i`. -/
def reb_example_store (n : Int) : reb_context :=
  { reb_example_context with
    N := n, allocatedN := 128,
    particles := fun i => { reb_particle.zero with ID := i } }

/-- A store of two particles of radii 1 (slot 0) and 0 (slot 1) whose radius
cache `(1, 0)` is what adding them in that order leaves. -/
def reb_example_radius_store : reb_context :=
  { reb_example_context with
    N := 2, allocatedN := 128, max_radius := (1, 0),
    particles := fun i => reb_example_particle 0 (if i = 0 then 1 else 0) }

/-! ## Lemmas on the growth loop -/

theorem reb_add_local_grow_of_lt (a N : Int) (h : N < a) : reb_add_local_grow a N = a := by
  rw [reb_add_local_grow]
  simp [not_le.mpr h]

theorem reb_add_local_grow_of_le (a N : Int) (h : a ≤ N) :
    reb_add_local_grow a N = reb_add_local_grow (a + 128) N := by
  rw [reb_add_local_grow]
  simp [h]

/-- The growth loop exits: the final capacity exceeds `N`, never is below the
initial one, and differs from it by whole chunks of 128. -/
theorem reb_add_local_grow_spec (n : Nat) : ∀ a N : Int, (N + 1 - a).toNat ≤ n →
    N < reb_add_local_grow a N ∧ a ≤ reb_add_local_grow a N ∧
      ∃ c : Nat, reb_add_local_grow a N = a + 128 * c := by
  induction n with
  | zero =>
    intro a N h
    have hlt : N < a := by omega
    rw [reb_add_local_grow_of_lt a N hlt]
    exact ⟨hlt, le_refl _, 0, by simp⟩
  | succ n ih =>
    intro a N h
    by_cases hle : a ≤ N
    · rw [reb_add_local_grow_of_le a N hle]
      obtain ⟨h1, h2, c, h3⟩ := ih (a + 128) N (by omega)
      refine ⟨h1, by omega, c + 1, ?_⟩
      rw [h3]
      push_cast
      ring
    · have hlt : N < a := by omega
      rw [reb_add_local_grow_of_lt a N hlt]
      exact ⟨hlt, le_refl _, 0, by simp⟩

theorem reb_add_local_grow_gt (a N : Int) : N < reb_add_local_grow a N :=
  (reb_add_local_grow_spec _ a N (le_refl _)).1

theorem reb_add_local_grow_ge (a N : Int) : a ≤ reb_add_local_grow a N :=
  (reb_add_local_grow_spec _ a N (le_refl _)).2.1

/-- From a capacity that is the chunk-rounded count, one more growth loop gives
the chunk-rounded count of `N + 1`. -/
theorem reb_add_local_grow_chunk (N : Int) :
    reb_add_local_grow (128 * ((N + 127) / 128)) N = 128 * ((N + 1 + 127) / 128) := by
  by_cases hle : 128 * ((N + 127) / 128) ≤ N
  · rw [reb_add_local_grow_of_le _ _ hle, reb_add_local_grow_of_lt _ _ (by omega)]
    omega
  · rw [reb_add_local_grow_of_lt _ _ (by omega)]
    omega

/-- The chunk count `⌈k / 128⌉` written with integer division. -/
theorem reb_chunk_ceil (k : Int) : ⌈(k : ℚ) / 128⌉ = (k + 127) / 128 := by
  rw [Int.ceil_eq_iff]
  have h1 : k ≤ (k + 127) / 128 * 128 := by omega
  have h2 : (k + 127) / 128 * 128 - 128 < k := by omega
  generalize (k + 127) / 128 = q at h1 h2 ⊢
  have h1q : (k : ℚ) ≤ (q : ℚ) * 128 := by exact_mod_cast h1
  have h2q : (q : ℚ) * 128 - 128 < (k : ℚ) := by exact_mod_cast h2
  constructor <;> linarith

/-! ## Frame lemmas for the add routines -/

theorem reb_boundary_particle_is_in_box_congr (r s : reb_context) (pt : reb_particle)
    (h : r.boxsize = s.boxsize) :
    reb_boundary_particle_is_in_box r pt = reb_boundary_particle_is_in_box s pt := by
  simp [reb_boundary_particle_is_in_box, h]

theorem reb_add_local_of_outside (r : reb_context) (pt : reb_particle)
    (h : reb_boundary_particle_is_in_box r pt = 0) : reb_add_local r pt = r := by
  simp [reb_add_local, h]

theorem reb_add_local_N (r : reb_context) (pt : reb_particle)
    (h : reb_boundary_particle_is_in_box r pt ≠ 0) : (reb_add_local r pt).N = r.N + 1 := by
  simp only [reb_add_local, if_neg h]
  split <;> rfl

theorem reb_add_local_allocatedN (r : reb_context) (pt : reb_particle)
    (h : reb_boundary_particle_is_in_box r pt ≠ 0) :
    (reb_add_local r pt).allocatedN = reb_add_local_grow r.allocatedN r.N := by
  simp only [reb_add_local, if_neg h]
  split <;> rfl

theorem reb_add_local_particles (r : reb_context) (pt : reb_particle)
    (h : reb_boundary_particle_is_in_box r pt ≠ 0) :
    (reb_add_local r pt).particles = Function.update r.particles r.N pt := by
  simp only [reb_add_local, if_neg h]
  split <;> rfl

theorem reb_add_local_boxsize (r : reb_context) (pt : reb_particle) :
    (reb_add_local r pt).boxsize = r.boxsize := by
  unfold reb_add_local
  split
  · rfl
  · dsimp only
    split <;> rfl

theorem reb_add_local_max_radius (r : reb_context) (pt : reb_particle) :
    (reb_add_local r pt).max_radius = r.max_radius := by
  unfold reb_add_local
  split
  · rfl
  · dsimp only
    split <;> rfl

theorem reb_add_max_radius_eq (r : reb_context) (pt : reb_particle) :
    (reb_add r pt).max_radius = reb_add_max_radius r.max_radius pt.r := by
  simp [reb_add, reb_add_local_max_radius]

theorem reb_add_boxsize (r : reb_context) (pt : reb_particle) :
    (reb_add r pt).boxsize = r.boxsize := by
  simp [reb_add, reb_add_local_boxsize]

theorem reb_add_call_run_boxsize (r : reb_context) (c : reb_add_call) :
    (c.run r).boxsize = r.boxsize := by
  cases c
  · exact reb_add_boxsize r _
  · exact reb_add_local_boxsize r _

/-- One call of an insert sequence keeps the chunk-rounded capacity,
and raises `N` by one exactly when the particle is inside the box. -/
theorem reb_add_call_run_step (r : reb_context) (c : reb_add_call)
    (ha : r.allocatedN = 128 * ((r.N + 127) / 128)) :
    (c.run r).N = r.N + (if reb_boundary_particle_is_in_box r c.pt = 0 then 0 else 1) ∧
      (c.run r).allocatedN = 128 * (((c.run r).N + 127) / 128) := by
  have key : ∀ s : reb_context, s.N = r.N → s.allocatedN = r.allocatedN →
      s.boxsize = r.boxsize →
      (reb_add_local s c.pt).N =
          r.N + (if reb_boundary_particle_is_in_box r c.pt = 0 then 0 else 1) ∧
        (reb_add_local s c.pt).allocatedN =
          128 * (((reb_add_local s c.pt).N + 127) / 128) := by
    intro s hN hA hB
    have hbox := reb_boundary_particle_is_in_box_congr s r c.pt hB
    by_cases hout : reb_boundary_particle_is_in_box r c.pt = 0
    · rw [reb_add_local_of_outside s c.pt (hbox.trans hout), if_pos hout, hN, hA, ha]
      simp
    · have hin : reb_boundary_particle_is_in_box s c.pt ≠ 0 := by rw [hbox]; exact hout
      rw [reb_add_local_N s c.pt hin, reb_add_local_allocatedN s c.pt hin, if_neg hout,
        hN, hA, ha, reb_add_local_grow_chunk r.N]
      exact ⟨rfl, rfl⟩
  cases c with
  | add pt => exact key _ rfl rfl rfl
  | add_local pt => exact key r rfl rfl rfl

/-- Invariant form of the capacity law along a whole insert sequence. -/
theorem reb_add_calls_fold (calls : List reb_add_call) : ∀ r : reb_context,
    r.allocatedN = 128 * ((r.N + 127) / 128) →
    (calls.foldl reb_add_call.run r).N = r.N + (reb_add_call.succeeded r calls : Int) ∧
      (calls.foldl reb_add_call.run r).allocatedN =
        128 * (((calls.foldl reb_add_call.run r).N + 127) / 128) := by
  induction calls with
  | nil =>
    intro r ha
    simp [reb_add_call.succeeded, ha]
  | cons c cs ih =>
    intro r ha
    obtain ⟨hN, hA⟩ := reb_add_call_run_step r c ha
    obtain ⟨hN2, hA2⟩ := ih (c.run r) hA
    refine ⟨?_, hA2⟩
    rw [List.foldl_cons, hN2, hN]
    simp only [reb_add_call.succeeded]
    split <;> push_cast <;> ring

/-- In the example box the position `(5, 0, 0)` is outside. -/
theorem reb_example_particle_outside :
    reb_boundary_particle_is_in_box reb_example_context (reb_example_particle 5 1) = 0 := by
  simp [reb_boundary_particle_is_in_box, reb_example_context, reb_example_particle,
    reb_particle.zero]

/-- In the example box the positions `(x, 0, 0)` with `-1 ≤ x < 1` are inside. -/
theorem reb_example_particle_inside (x rad : ℚ) (h1 : -1 ≤ x) (h2 : x < 1) :
    reb_boundary_particle_is_in_box reb_example_context (reb_example_particle x rad) ≠ 0 := by
  simp [reb_boundary_particle_is_in_box, reb_example_context, reb_example_particle,
    reb_particle.zero, h1, h2]

/-! ## Lemmas on removal -/

theorem reb_remove_shift_of_lt (ps : Int → reb_particle) (j N : Int) (h : j < N) :
    reb_remove_shift ps j N =
      reb_remove_shift (Function.update ps j (ps (j + 1))) (j + 1) N := by
  rw [reb_remove_shift]
  simp [h]

theorem reb_remove_shift_of_ge (ps : Int → reb_particle) (j N : Int) (h : N ≤ j) :
    reb_remove_shift ps j N = ps := by
  rw [reb_remove_shift]
  simp [not_lt.mpr h]

/-- Effect of the shifting loop on every slot: slots `j .. N-1` receive their
right neighbour, all other slots keep their content. -/
theorem reb_remove_shift_apply (n : Nat) : ∀ (ps : Int → reb_particle) (j N : Int),
    (N - j).toNat ≤ n → ∀ i : Int,
      reb_remove_shift ps j N i = if j ≤ i ∧ i < N then ps (i + 1) else ps i := by
  induction n with
  | zero =>
    intro ps j N h i
    rw [reb_remove_shift_of_ge ps j N (by omega), if_neg (by omega)]
  | succ n ih =>
    intro ps j N h i
    by_cases hj : j < N
    · rw [reb_remove_shift_of_lt ps j N hj, ih _ (j + 1) N (by omega) i]
      by_cases hij : i = j
      · subst hij
        rw [if_neg (by omega), if_pos ⟨le_refl _, hj⟩, Function.update_same]
      · by_cases hc : j + 1 ≤ i ∧ i < N
        · rw [if_pos hc, if_pos ⟨by omega, hc.2⟩,
            Function.update_noteq (by omega : i + 1 ≠ j)]
        · rw [if_neg hc, if_neg (by omega), Function.update_noteq hij]
    · rw [reb_remove_shift_of_ge ps j N (by omega), if_neg (by omega)]

theorem reb_context.populated_length (r : reb_context) :
    r.populated.length = r.N.toNat := by
  simp [reb_context.populated]

theorem reb_context.populated_getElem_opt (r : reb_context) (j : Nat) :
    r.populated[j]? = if j < r.N.toNat then some (r.particles (j : Int)) else none := by
  unfold reb_context.populated
  by_cases h : j < r.N.toNat
  · rw [if_pos h, List.getElem?_map, List.getElem?_range h]
    rfl
  · rw [if_neg h, List.getElem?_eq_none (by simpa using h)]

/-- Overwriting position `i` of a list with `y` and putting the overwritten
element in front gives a permutation of `y` in front of the list. -/
theorem reb_perm_set_cons (M : List reb_particle) : ∀ (i : Nat) (h : i < M.length)
    (y : reb_particle), List.Perm (M[i] :: M.set i y) (y :: M) := by
  induction M with
  | nil => intro i h; simp at h
  | cons a M ih =>
    intro i h y
    cases i with
    | zero => exact List.Perm.swap _ _ _
    | succ i =>
      have hi : i < M.length := by simpa using h
      simp only [List.getElem_cons_succ, List.set_cons_succ]
      exact ((List.Perm.swap a M[i] (M.set i y)).trans ((ih i hi y).cons a)).trans
        (List.Perm.swap y a M)

/-- Overwriting slot `k ≤ m` with slot `m` and dropping slot `m` keeps, together
with the overwritten particle, exactly the particles of slots `0 .. m`. -/
theorem reb_populated_swap_last (ps : Int → reb_particle) (m k : Nat) (hk : k ≤ m) :
    List.Perm
      (ps (k : Int) :: (List.range m).map
        (fun i : Nat => Function.update ps (k : Int) (ps (m : Int)) (Int.ofNat i)))
      ((List.range (m + 1)).map (fun i : Nat => ps (Int.ofNat i))) := by
  rw [List.range_succ, List.map_append, List.map_singleton]
  refine List.Perm.trans ?_ (List.perm_append_singleton _ _).symm
  by_cases hkm : k = m
  · subst hkm
    have : (List.range k).map
        (fun i : Nat => Function.update ps (k : Int) (ps (k : Int)) (Int.ofNat i)) =
        (List.range k).map (fun i : Nat => ps (Int.ofNat i)) := by
      apply List.map_congr_left
      intro i _
      simp
    rw [this]
    exact List.Perm.refl _
  · have hlt : k < m := by omega
    have hlen : k < ((List.range m).map (fun i : Nat => ps (Int.ofNat i))).length := by
      simpa using hlt
    have hset : (List.range m).map
        (fun i : Nat => Function.update ps (k : Int) (ps (m : Int)) (Int.ofNat i)) =
        ((List.range m).map (fun i : Nat => ps (Int.ofNat i))).set k (ps (m : Int)) := by
      apply List.ext_getElem
      · simp
      · intro j h1 h2
        have hj : j < m := by simpa using h1
        rw [List.getElem_set]
        have hjr : j < (List.range m).length := by simpa using hj
        have hr : (List.range m)[j] = j := by simp
        simp only [List.getElem_map, Function.update_apply, hr]
        by_cases hkj : k = j
        · subst hkj
          simp
        · have hne : ¬ (Int.ofNat j = (k : Int)) := by
            simp only [Int.ofNat_eq_coe]
            omega
          rw [if_neg hkj, if_neg hne]
    have hk0 : ((List.range m).map (fun i : Nat => ps (Int.ofNat i)))[k] = ps (k : Int) := by
      simp
    rw [hset, ← hk0]
    exact reb_perm_set_cons _ k hlen _

/-- Effect of a successful removal on the context. -/
theorem reb_remove_success (r : reb_context) (index keepSorted : Int)
    (h1 : r.N ≠ 1) (h2 : index < r.N) (hm : r.N_megno = 0) :
    reb_remove r index keepSorted =
      ({ r with
          N := r.N - 1,
          particles :=
            if keepSorted ≠ 0 then reb_remove_shift r.particles index (r.N - 1)
            else Function.update r.particles index (r.particles (r.N - 1)) }, 1) := by
  unfold reb_remove
  rw [if_neg h1, if_neg (by omega), if_neg (by simp [hm])]
  by_cases hk : keepSorted ≠ 0
  · simp only [if_pos hk]
  · simp only [if_neg hk]

/-! ## Lemmas on the radius cache -/

/-- Sorting a list extended at the end is inserting the new entry into the
sorted list. -/
theorem reb_insertionSort_append_singleton (rs : List ℚ) (x : ℚ) :
    (rs ++ [x]).insertionSort (· ≥ ·) =
      List.orderedInsert (· ≥ ·) x (rs.insertionSort (· ≥ ·)) := by
  apply List.eq_of_perm_of_sorted (r := (· ≥ ·))
  · have h1 : List.Perm (rs ++ [x]) (x :: rs) := List.perm_append_singleton x rs
    have h2 : List.Perm (x :: rs) (x :: rs.insertionSort (· ≥ ·)) :=
      (List.perm_insertionSort (· ≥ ·) rs).symm.cons x
    exact ((List.perm_insertionSort (· ≥ ·) (rs ++ [x])).trans (h1.trans h2)).trans
      (List.perm_orderedInsert (· ≥ ·) x _).symm
  · exact List.sorted_insertionSort (· ≥ ·) _
  · exact (List.sorted_insertionSort (· ≥ ·) rs).orderedInsert x _

/-- One cache update is one ordered insertion, seen through the first two
entries of a descending list of non-negative radii. -/
theorem reb_add_max_radius_orderedInsert (S : List ℚ) (x : ℚ)
    (hS : S.Sorted (· ≥ ·)) (h0 : ∀ y ∈ S, 0 ≤ y) (hx : 0 ≤ x) :
    ((List.orderedInsert (· ≥ ·) x S).getD 0 0, (List.orderedInsert (· ≥ ·) x S).getD 1 0) =
      reb_add_max_radius (S.getD 0 0, S.getD 1 0) x := by
  match S, hS, h0 with
  | [], _, _ => simp [reb_add_max_radius, hx]
  | [a], _, h0 =>
    by_cases hxa : x ≥ a
    · simp [List.orderedInsert, reb_add_max_radius, hxa]
    · simp [List.orderedInsert, reb_add_max_radius, hxa, hx]
  | a :: b :: t, hS, _ =>
    by_cases hxa : x ≥ a
    · simp [List.orderedInsert, reb_add_max_radius, hxa]
    · by_cases hxb : x ≥ b
      · simp [List.orderedInsert, reb_add_max_radius, hxa, hxb]
      · simp [List.orderedInsert, reb_add_max_radius, hxa, hxb]

/-- The cache update on the two largest radii of a list gives the two largest
radii of the list extended by the new radius. -/
theorem reb_two_largest_append_singleton (rs : List ℚ) (x : ℚ)
    (h0 : ∀ y ∈ rs, 0 ≤ y) (hx : 0 ≤ x) :
    reb_two_largest (rs ++ [x]) = reb_add_max_radius (reb_two_largest rs) x := by
  unfold reb_two_largest
  rw [reb_insertionSort_append_singleton]
  apply reb_add_max_radius_orderedInsert _ _ (List.sorted_insertionSort (· ≥ ·) rs) _ hx
  intro y hy
  exact h0 y ((List.perm_insertionSort (· ≥ ·) rs).subset hy)

/-! ## Frame lemmas for `reb_add`, `reb_add_fixed` and `reb_remove` -/

theorem reb_add_N (r : reb_context) (pt : reb_particle)
    (h : reb_boundary_particle_is_in_box r pt ≠ 0) : (reb_add r pt).N = r.N + 1 := by
  unfold reb_add
  have hb : reb_boundary_particle_is_in_box
      { r with max_radius := reb_add_max_radius r.max_radius pt.r } pt =
      reb_boundary_particle_is_in_box r pt :=
    reb_boundary_particle_is_in_box_congr _ _ pt rfl
  exact reb_add_local_N _ pt (by rw [hb]; exact h)

/-- The allocation exceeds the count after every accepted `reb_add_local`, and
both are untouched by a rejected one. -/
theorem reb_add_local_capacity (r : reb_context) (pt : reb_particle)
    (h : r.N ≤ r.allocatedN) :
    (reb_add_local r pt).N ≤ (reb_add_local r pt).allocatedN := by
  by_cases hout : reb_boundary_particle_is_in_box r pt = 0
  · rw [reb_add_local_of_outside r pt hout]
    exact h
  · rw [reb_add_local_N r pt hout, reb_add_local_allocatedN r pt hout]
    have := reb_add_local_grow_gt r.allocatedN r.N
    omega

theorem reb_add_fixed_of_outside (r : reb_context) (pt : reb_particle) (pos : Int)
    (h : reb_boundary_particle_is_in_box r pt = 0) : reb_add_fixed r pt pos = r := by
  simp [reb_add_fixed, h]

theorem reb_add_fixed_N (r : reb_context) (pt : reb_particle) (pos : Int) :
    (reb_add_fixed r pt pos).N = r.N := by
  unfold reb_add_fixed
  split
  · rfl
  · dsimp only
    split <;> rfl

theorem reb_add_fixed_allocatedN (r : reb_context) (pt : reb_particle) (pos : Int) :
    (reb_add_fixed r pt pos).allocatedN = r.allocatedN := by
  unfold reb_add_fixed
  split
  · rfl
  · dsimp only
    split <;> rfl

theorem reb_add_fixed_particles (r : reb_context) (pt : reb_particle) (pos : Int)
    (h : reb_boundary_particle_is_in_box r pt ≠ 0) :
    (reb_add_fixed r pt pos).particles = Function.update r.particles pos pt := by
  simp only [reb_add_fixed, if_neg h]
  split <;> rfl

theorem reb_remove_allocatedN (r : reb_context) (index keepSorted : Int) :
    (reb_remove r index keepSorted).1.allocatedN = r.allocatedN := by
  unfold reb_remove
  split
  · rfl
  · split
    · rfl
    · split
      · rfl
      · dsimp only
        split <;> rfl

theorem reb_remove_max_radius (r : reb_context) (index keepSorted : Int) :
    (reb_remove r index keepSorted).1.max_radius = r.max_radius := by
  unfold reb_remove
  split
  · rfl
  · split
    · rfl
    · split
      · rfl
      · dsimp only
        split <;> rfl

theorem reb_remove_N_le (r : reb_context) (index keepSorted : Int) :
    (reb_remove r index keepSorted).1.N ≤ r.N := by
  unfold reb_remove
  split
  · exact le_refl _
  · split
    · exact le_refl _
    · split
      · exact le_refl _
      · dsimp only
        split <;> (show r.N - 1 ≤ r.N) <;> omega

/-! ## `reb_add` and the MEGNO counter -/

theorem reb_add_local_N_megno (r : reb_context) (pt : reb_particle) :
    (reb_add_local r pt).N_megno = r.N_megno := by
  unfold reb_add_local
  split
  · rfl
  · dsimp only
    split <;> rfl

theorem reb_add_local_tree_of_inside (r : reb_context) (pt : reb_particle)
    (h : reb_boundary_particle_is_in_box r pt ≠ 0) :
    (reb_add_local r pt).tree =
      if r.gravity = reb_gravity.RB_GT_TREE ∨ r.collision = reb_collision.RB_CT_TREE
      then r.tree ++ [r.N] else r.tree := by
  simp only [reb_add_local, if_neg h]
  split <;> rfl

/-- `reb_add_local` does not read `N_megno`: running it with another value of
the counter gives the same context up to that counter. -/
theorem reb_add_local_set_N_megno (r : reb_context) (pt : reb_particle) (n : Int) :
    reb_add_local { r with N_megno := n } pt = { reb_add_local r pt with N_megno := n } := by
  have hb : reb_boundary_particle_is_in_box { r with N_megno := n } pt =
      reb_boundary_particle_is_in_box r pt :=
    reb_boundary_particle_is_in_box_congr _ _ pt rfl
  unfold reb_add_local
  rw [hb]
  split
  · rfl
  · dsimp only
    split <;> rfl

/-- `reb_add` does not read `N_megno` when it updates the context. -/
theorem reb_add_set_N_megno (r : reb_context) (pt : reb_particle) (n : Int) :
    reb_add { r with N_megno := n } pt = { reb_add r pt with N_megno := n } := by
  unfold reb_add
  exact reb_add_local_set_N_megno
    { r with max_radius := reb_add_max_radius r.max_radius pt.r } pt n

/-! ## Lemmas on binary64 rounding and the root-box index -/

theorem reb_round_half_even_intCast (z : Int) : reb_round_half_even (z : ℚ) = z := by
  unfold reb_round_half_even
  simp

theorem reb_double_ulp_pos (q : ℚ) : (0 : ℚ) < (2 : ℚ) ^ reb_double_ulp q :=
  zpow_pos (by norm_num) _

theorem reb_double_round_zero : reb_double_round 0 = 0 := by
  unfold reb_double_round
  simp [reb_round_half_even]

/-- A power of two with a non-negative exponent is an integer. -/
theorem reb_two_zpow_toNat (d : Int) (hd : 0 ≤ d) :
    (2 : ℚ) ^ d.toNat = (2 : ℚ) ^ d := by
  obtain ⟨n, rfl⟩ := Int.eq_ofNat_of_zero_le hd
  simp

/-- A value that is a whole multiple of `2 ^ k` with `k` at least the exponent
of its unit in the last place is left alone. -/
theorem reb_double_round_of_multiple (q : ℚ) (z k : Int) (hq : q = (z : ℚ) * (2 : ℚ) ^ k)
    (hk : reb_double_ulp q ≤ k) : reb_double_round q = q := by
  unfold reb_double_round
  have hu := reb_double_ulp_pos q
  have hsplit : (2 : ℚ) ^ k = (2 : ℚ) ^ (k - reb_double_ulp q) * (2 : ℚ) ^ reb_double_ulp q := by
    rw [← zpow_add₀ (by norm_num : (2 : ℚ) ≠ 0)]
    congr 1
    omega
  have hdiv : q / (2 : ℚ) ^ reb_double_ulp q =
      ((z * (2 : Int) ^ (k - reb_double_ulp q).toNat : Int) : ℚ) := by
    rw [div_eq_iff (ne_of_gt hu)]
    push_cast
    rw [reb_two_zpow_toNat (k - reb_double_ulp q) (by omega), mul_assoc, ← hsplit]
    exact hq
  rw [hdiv, reb_round_half_even_intCast, ← hdiv, div_mul_cancel₀ _ (ne_of_gt hu)]

/-- Dyadic values with a significand below `2 ^ 53` and an exponent of at least
`-1074` are binary64 values: rounding leaves them alone. -/
theorem reb_double_round_dyadic (m k : Int) (hm : |m| < 2 ^ 53) (hk : -1074 ≤ k) :
    reb_double_round ((m : ℚ) * (2 : ℚ) ^ k) = (m : ℚ) * (2 : ℚ) ^ k := by
  by_cases h0 : m = 0
  · rw [h0]
    simp [reb_double_round_zero]
  · apply reb_double_round_of_multiple _ m k rfl
    unfold reb_double_ulp
    have hpos : (0 : ℚ) < |(m : ℚ) * (2 : ℚ) ^ k| := by
      apply abs_pos.mpr
      exact mul_ne_zero (by exact_mod_cast h0) (ne_of_gt (zpow_pos (by norm_num) _))
    have hlt : |(m : ℚ) * (2 : ℚ) ^ k| < ((2 : ℕ) : ℚ) ^ (k + 53) := by
      rw [abs_mul, abs_of_pos (zpow_pos (by norm_num : (0 : ℚ) < 2) k)]
      have hm' : |(m : ℚ)| < (2 : ℚ) ^ (53 : ℕ) := by
        have : ((|m| : Int) : ℚ) < ((2 ^ 53 : Int) : ℚ) := by exact_mod_cast hm
        simpa using this
      have : (2 : ℚ) ^ (k + 53) = (2 : ℚ) ^ (53 : ℕ) * (2 : ℚ) ^ k := by
        rw [zpow_add₀ (by norm_num : (2 : ℚ) ≠ 0), mul_comm]
        norm_cast
      rw [Nat.cast_ofNat, this]
      exact mul_lt_mul_of_pos_right hm' (zpow_pos (by norm_num) k)
    have := (Int.lt_zpow_iff_log_lt (b := 2) (by norm_num) hpos).mp hlt
    omega

theorem reb_double_of_round (q v : ℚ) (h : reb_double_round q = v) (hv : |v| < 2 ^ 1024) :
    reb_double q = some v := by
  unfold reb_double
  rw [h, if_pos hv]

theorem reb_int_of_range (z : Int) (h1 : -2 ^ 31 ≤ z) (h2 : z < 2 ^ 31) :
    reb_int z = some z := by
  unfold reb_int
  rw [if_pos ⟨h1, h2⟩]

/-- Evaluation of one axis from the values of its double operations. -/
theorem reb_get_rootbox_axis_eval (x b rs : ℚ) (n : Int) (h s q : ℚ)
    (hh : reb_double (b / 2) = some h) (hs : reb_double (x + h) = some s)
    (hrs : rs ≠ 0) (hq : reb_double (s / rs) = some q)
    (hf1 : -2 ^ 31 ≤ ⌊q⌋) (hf2 : ⌊q⌋ < 2 ^ 31)
    (ht1 : -2 ^ 31 < ⌊q⌋ + n) (ht2 : ⌊q⌋ + n < 2 ^ 31) (hn : n ≠ 0) :
    reb_get_rootbox_axis x b rs n = some (Int.tmod (⌊q⌋ + n) n) := by
  unfold reb_get_rootbox_axis
  rw [hh, Option.some_bind, hs, Option.some_bind, if_neg hrs, hq, Option.some_bind,
    reb_int_of_range _ hf1 hf2, Option.some_bind,
    reb_int_of_range _ (le_of_lt ht1) ht2, Option.some_bind]
  unfold reb_int_rem
  rw [if_neg]
  intro hc
  rcases hc with hc | hc
  · exact hn hc
  · omega

/-- Dyadic values with a significand below `2 ^ 53`, an exponent of at least
`-1074` and a magnitude below `2 ^ 1024` are finite binary64 values. -/
theorem reb_is_double_dyadic (q : ℚ) (m k : Int) (hq : q = (m : ℚ) * (2 : ℚ) ^ k)
    (hm : |m| < 2 ^ 53) (hk : -1074 ≤ k) (hf : |q| < 2 ^ 1024) : reb_is_double q := by
  unfold reb_is_double
  apply reb_double_of_round _ _ _ hf
  rw [hq]
  exact reb_double_round_dyadic m k hm hk

/-- One axis when the halving, the sum and the quotient are exact in binary64:
the index is the wrapped exact floor quotient. -/
theorem reb_get_rootbox_axis_exact (x b rs : ℚ) (n : Int)
    (hh : reb_is_double (b / 2)) (hs : reb_is_double (x + b / 2)) (hrs : rs ≠ 0)
    (hq : reb_is_double ((x + b / 2) / rs))
    (hf1 : -2 ^ 31 ≤ ⌊(x + b / 2) / rs⌋) (hf2 : ⌊(x + b / 2) / rs⌋ < 2 ^ 31)
    (ht1 : -2 ^ 31 < ⌊(x + b / 2) / rs⌋ + n) (ht2 : ⌊(x + b / 2) / rs⌋ + n < 2 ^ 31)
    (hn : n ≠ 0) :
    reb_get_rootbox_axis x b rs n = some (Int.tmod (⌊(x + b / 2) / rs⌋ + n) n) :=
  reb_get_rootbox_axis_eval x b rs n (b / 2) (x + b / 2) ((x + b / 2) / rs) hh hs hrs hq
    hf1 hf2 ht1 ht2 hn

/-- The root-box index from the three per-axis indices and the flat index. -/
theorem reb_get_rootbox_for_particle_eval (r : reb_context) (pt : reb_particle)
    (i j k v : Int) (hrs : r.root_size ≠ -1)
    (hx : reb_get_rootbox_axis pt.x r.boxsize.x r.root_size r.root_nx = some i)
    (hy : reb_get_rootbox_axis pt.y r.boxsize.y r.root_size r.root_ny = some j)
    (hz : reb_get_rootbox_axis pt.z r.boxsize.z r.root_size r.root_nz = some k)
    (hv : ((reb_int (k * r.root_ny)).bind fun a =>
      (reb_int (a + j)).bind fun b =>
      (reb_int (b * r.root_nx)).bind fun c =>
      reb_int (c + i)) = some v) :
    reb_get_rootbox_for_particle r pt = some v := by
  unfold reb_get_rootbox_for_particle
  rw [if_neg hrs, hx, Option.some_bind, hy, Option.some_bind, hz, Option.some_bind]
  exact hv

/-- In the example box the `y` and `z` axes (box size 1, one root box) map the
coordinate 0 to index 0. -/
theorem reb_example_axis_unit : reb_get_rootbox_axis 0 1 1 1 = some 0 := by
  have hd : reb_is_double (1 / 2 : ℚ) :=
    reb_is_double_dyadic _ 1 (-1) (by norm_num) (by decide) (by decide)
      (by rw [abs_of_pos (by norm_num)]; norm_num)
  have hfl : ⌊((0 : ℚ) + 1 / 2) / 1⌋ = 0 := by
    rw [Int.floor_eq_iff]
    norm_num
  have h := reb_get_rootbox_axis_exact 0 1 1 1 hd (by simpa using hd) (by norm_num)
    (by simpa using hd) (by rw [hfl]; decide) (by rw [hfl]; decide) (by rw [hfl]; decide)
    (by rw [hfl]; decide) (by decide)
  rw [h, hfl]
  rfl

/-- In the example box the `x` axis (box size 2, two root boxes of size 1) maps
`x = -7/2` to the index `-1`. -/
theorem reb_example_axis_far_left : reb_get_rootbox_axis (-7 / 2) 2 1 2 = some (-1) := by
  have h1 : reb_is_double (2 / 2 : ℚ) :=
    reb_is_double_dyadic _ 1 0 (by norm_num) (by decide) (by decide)
      (by rw [abs_of_pos (by norm_num)]; norm_num)
  have h2 : reb_is_double (-7 / 2 + 2 / 2 : ℚ) :=
    reb_is_double_dyadic _ (-5) (-1) (by norm_num) (by decide) (by decide)
      (by rw [abs_of_neg (by norm_num)]; norm_num)
  have h3 : reb_is_double ((-7 / 2 + 2 / 2 : ℚ) / 1) := by simpa using h2
  have hfl : ⌊((-7 / 2 : ℚ) + 2 / 2) / 1⌋ = -3 := by
    rw [Int.floor_eq_iff]
    norm_num
  have h := reb_get_rootbox_axis_exact (-7 / 2) 2 1 2 h1 h2 (by norm_num) h3
    (by rw [hfl]; decide) (by rw [hfl]; decide) (by rw [hfl]; decide)
    (by rw [hfl]; decide) (by decide)
  rw [h, hfl]
  rfl

/-- In the example box the `x` axis maps `x = -7/2 + 1 * 2` to the index 1. -/
theorem reb_example_axis_left : reb_get_rootbox_axis (-7 / 2 + 1 * 2) 2 1 2 = some 1 := by
  have h1 : reb_is_double (2 / 2 : ℚ) :=
    reb_is_double_dyadic _ 1 0 (by norm_num) (by decide) (by decide)
      (by rw [abs_of_pos (by norm_num)]; norm_num)
  have h2 : reb_is_double (-7 / 2 + 1 * 2 + 2 / 2 : ℚ) :=
    reb_is_double_dyadic _ (-1) (-1) (by norm_num) (by decide) (by decide)
      (by rw [abs_of_neg (by norm_num)]; norm_num)
  have h3 : reb_is_double ((-7 / 2 + 1 * 2 + 2 / 2 : ℚ) / 1) := by simpa using h2
  have hfl : ⌊((-7 / 2 + 1 * 2 : ℚ) + 2 / 2) / 1⌋ = -1 := by
    rw [Int.floor_eq_iff]
    norm_num
  have h := reb_get_rootbox_axis_exact (-7 / 2 + 1 * 2) 2 1 2 h1 h2 (by norm_num) h3
    (by rw [hfl]; decide) (by rw [hfl]; decide) (by rw [hfl]; decide)
    (by rw [hfl]; decide) (by decide)
  rw [h, hfl]
  rfl

theorem reb_remove_shift_traced_of_lt (ps : Int → reb_particle) (j N : Int) (h : j < N) :
    reb_remove_shift_traced ps j N =
      ((reb_remove_shift_traced (Function.update ps j (ps (j + 1))) (j + 1) N).1,
        reb_access.read (j + 1) :: reb_access.write j ::
          (reb_remove_shift_traced (Function.update ps j (ps (j + 1))) (j + 1) N).2) := by
  rw [reb_remove_shift_traced]
  simp [h]

theorem reb_remove_shift_traced_of_ge (ps : Int → reb_particle) (j N : Int) (h : N ≤ j) :
    reb_remove_shift_traced ps j N = (ps, []) := by
  rw [reb_remove_shift_traced]
  simp [not_lt.mpr h]

/-- The instrumented shifting loop computes the array of the shifting loop, and
every slot it touches lies between the start index and the decremented count,
both included. -/
theorem reb_remove_shift_traced_spec (n : Nat) : ∀ (ps : Int → reb_particle) (j N : Int),
    (N - j).toNat ≤ n →
      (reb_remove_shift_traced ps j N).1 = reb_remove_shift ps j N ∧
        ∀ a ∈ (reb_remove_shift_traced ps j N).2, j ≤ a.slot ∧ a.slot ≤ N := by
  induction n with
  | zero =>
    intro ps j N h
    rw [reb_remove_shift_traced_of_ge ps j N (by omega),
      reb_remove_shift_of_ge ps j N (by omega)]
    exact ⟨rfl, fun a ha => by simp at ha⟩
  | succ n ih =>
    intro ps j N h
    by_cases hj : j < N
    · rw [reb_remove_shift_traced_of_lt ps j N hj, reb_remove_shift_of_lt ps j N hj]
      obtain ⟨h1, h2⟩ := ih (Function.update ps j (ps (j + 1))) (j + 1) N (by omega)
      refine ⟨h1, ?_⟩
      intro a ha
      simp only [List.mem_cons] at ha
      rcases ha with ha | ha | ha
      · subst ha
        show j ≤ j + 1 ∧ j + 1 ≤ N
        omega
      · subst ha
        show j ≤ j ∧ j ≤ N
        omega
      · have := h2 a ha
        omega
    · rw [reb_remove_shift_traced_of_ge ps j N (by omega),
        reb_remove_shift_of_ge ps j N (by omega)]
      exact ⟨rfl, fun a ha => by simp at ha⟩

/-- The instrumented `reb_remove` returns what `reb_remove` returns. -/
theorem reb_remove_traced_result (r : reb_context) (index keepSorted : Int) :
    (reb_remove_traced r index keepSorted).1 = reb_remove r index keepSorted := by
  unfold reb_remove_traced reb_remove
  split
  · rfl
  · split
    · rfl
    · split
      · rfl
      · dsimp only
        split
        · rw [(reb_remove_shift_traced_spec _ r.particles index (r.N - 1) (le_refl _)).1]
        · rfl

/-- The accesses of an order-keeping removal of slot 1 from three particles:
slot 2 is read and slot 1 is written, once. -/
theorem reb_remove_traced_example :
    (reb_remove_traced (reb_example_store 3) 1 1).2 =
      [reb_access.read 2, reb_access.write 1] := by
  have hN : (reb_example_store 3).N = 3 := rfl
  have hM : (reb_example_store 3).N_megno = 0 := rfl
  unfold reb_remove_traced
  rw [if_neg (by rw [hN]; decide), if_neg (by rw [hN]; decide),
    if_neg (by rw [hM]; decide)]
  dsimp only
  rw [if_pos (by decide), hN, reb_remove_shift_traced_of_lt _ 1 (3 - 1) (by decide),
    reb_remove_shift_traced_of_ge _ (1 + 1) (3 - 1) (by decide)]
  rfl

/-! ## Claims -/

/-- C1. Starting from an empty store (`N = 0`, `allocatedN = 0`), after any
sequence of `reb_add` / `reb_add_local` calls of which exactly `k` succeed
(particle inside the box), `N = k`, `allocatedN ≥ k`, and `allocatedN` is the
multiple of the chunk 128 given by `0` for `k = 0` and `128 * ⌈k / 128⌉` for
`k ≥ 1`. -/
theorem reb_add_sequence_count_and_capacity (r : reb_context) (calls : List reb_add_call)
    (hN : r.N = 0) (hA : r.allocatedN = 0) :
    (calls.foldl reb_add_call.run r).N = (reb_add_call.succeeded r calls : Int) ∧
      (calls.foldl reb_add_call.run r).allocatedN ≥ (reb_add_call.succeeded r calls : Int) ∧
      (128 : Int) ∣ (calls.foldl reb_add_call.run r).allocatedN ∧
      (calls.foldl reb_add_call.run r).allocatedN =
        (if reb_add_call.succeeded r calls = 0 then 0
         else 128 * ⌈((reb_add_call.succeeded r calls : Int) : ℚ) / 128⌉) := by
  obtain ⟨h1, h2⟩ := reb_add_calls_fold calls r (by rw [hN, hA]; decide)
  rw [hN, zero_add] at h1
  rw [h1] at h2
  have hceil := reb_chunk_ceil (reb_add_call.succeeded r calls : Int)
  refine ⟨h1, ?_, ?_, ?_⟩
  · rw [h2]; omega
  · rw [h2]; exact Dvd.intro _ rfl
  · rw [h2, hceil]
    split
    · next h0 => rw [h0]; decide
    · rfl

/-- Witness of C1: two calls inside the box and one outside, from the empty
example store. -/
theorem reb_add_sequence_count_and_capacity_witness :
    (([reb_add_call.add (reb_example_particle 0 1),
        reb_add_call.add_local (reb_example_particle 5 1),
        reb_add_call.add_local (reb_example_particle (1 / 2) 1)].foldl
          reb_add_call.run reb_example_context).N =
      (reb_add_call.succeeded reb_example_context
        [reb_add_call.add (reb_example_particle 0 1),
          reb_add_call.add_local (reb_example_particle 5 1),
          reb_add_call.add_local (reb_example_particle (1 / 2) 1)] : Int)) :=
  (reb_add_sequence_count_and_capacity reb_example_context
    [reb_add_call.add (reb_example_particle 0 1),
      reb_add_call.add_local (reb_example_particle 5 1),
      reb_add_call.add_local (reb_example_particle (1 / 2) 1)] rfl rfl).1

/-- Counterexample to C2 as stated: a particle outside the box, with radius 1,
is rejected by `reb_add` and yet the radius cache changes from `(0, 0)` to
`(1, 0)`. -/
theorem reb_add_outside_updates_max_radius :
    reb_boundary_particle_is_in_box reb_example_context (reb_example_particle 5 1) = 0 ∧
      reb_example_context.max_radius = (0, 0) ∧
      (reb_add reb_example_context (reb_example_particle 5 1)).max_radius = (1, 0) ∧
      (reb_add reb_example_context (reb_example_particle 5 1)).max_radius ≠
        reb_example_context.max_radius := by
  have h : (reb_add reb_example_context (reb_example_particle 5 1)).max_radius = (1, 0) := by
    rw [reb_add_max_radius_eq]
    simp [reb_add_max_radius, reb_example_context, reb_example_particle, reb_particle.zero]
  refine ⟨reb_example_particle_outside, rfl, h, ?_⟩
  rw [h]
  simp [reb_example_context]

/-- C2 (amended). For every context and every particle outside the box,
`reb_add` leaves `N`, `allocatedN`, every particle slot and the tree record
unchanged; the radius cache is still updated with the radius of the rejected
particle, and keeps its previous value when that radius is below both cached
radii. -/
theorem reb_add_outside_frame (r : reb_context) (pt : reb_particle)
    (h : reb_boundary_particle_is_in_box r pt = 0) :
    (reb_add r pt).N = r.N ∧ (reb_add r pt).allocatedN = r.allocatedN ∧
      (reb_add r pt).particles = r.particles ∧ (reb_add r pt).tree = r.tree ∧
      (reb_add r pt).max_radius = reb_add_max_radius r.max_radius pt.r ∧
      (pt.r < r.max_radius.1 → pt.r < r.max_radius.2 →
        (reb_add r pt).max_radius = r.max_radius) := by
  have hr : reb_add r pt = { r with max_radius := reb_add_max_radius r.max_radius pt.r } :=
    reb_add_local_of_outside _ pt
      ((reb_boundary_particle_is_in_box_congr _ r pt rfl).trans h)
  rw [hr]
  refine ⟨rfl, rfl, rfl, rfl, rfl, ?_⟩
  intro h1 h2
  simp [reb_add_max_radius, not_le.mpr h1, not_le.mpr h2]

/-- Witness of the amended C2 at the rejected particle of the counterexample. -/
theorem reb_add_outside_frame_witness :
    reb_boundary_particle_is_in_box reb_example_context (reb_example_particle 5 1) = 0 ∧
      (reb_add reb_example_context (reb_example_particle 5 1)).N = reb_example_context.N :=
  ⟨reb_example_particle_outside,
    (reb_add_outside_frame reb_example_context (reb_example_particle 5 1)
      reb_example_particle_outside).1⟩

/-- C3. For every store with `N ≥ 2`, `N_megno = 0` and `0 ≤ index < N`,
`reb_remove` with `keepSorted` set returns 1, decrements `N` by one, and the
populated slots afterwards are the original populated slots with the element at
position `index` erased, all others in their original relative order. -/
theorem reb_remove_keepSorted_erases (r : reb_context) (index keepSorted : Int)
    (hN : 2 ≤ r.N) (hm : r.N_megno = 0) (h0 : 0 ≤ index) (h1 : index < r.N)
    (hk : keepSorted ≠ 0) :
    (reb_remove r index keepSorted).2 = 1 ∧
      (reb_remove r index keepSorted).1.N = r.N - 1 ∧
      (reb_remove r index keepSorted).1.populated = r.populated.eraseIdx index.toNat := by
  rw [reb_remove_success r index keepSorted (by omega) h1 hm]
  refine ⟨rfl, rfl, ?_⟩
  apply List.ext_getElem?
  intro j
  have hR : (r.populated.eraseIdx index.toNat)[j]? =
      if j < index.toNat then r.populated[j]? else r.populated[j + 1]? :=
    List.getElem?_eraseIdx _ _ _
  rw [hR, reb_context.populated_getElem_opt, reb_context.populated_getElem_opt,
    reb_context.populated_getElem_opt]
  simp only [if_pos hk]
  rw [reb_remove_shift_apply _ r.particles index (r.N - 1) (le_refl _)]
  by_cases hj : j < (r.N - 1).toNat
  · by_cases hji : j < index.toNat
    · have c1 : ¬ (index ≤ (j : Int) ∧ (j : Int) < r.N - 1) := by omega
      have c2 : j < r.N.toNat := by omega
      simp only [if_pos hj, if_pos hji, if_neg c1, if_pos c2]
    · have c1 : index ≤ (j : Int) ∧ (j : Int) < r.N - 1 := by omega
      have c2 : j + 1 < r.N.toNat := by omega
      simp only [if_pos hj, if_neg hji, if_pos c1, if_pos c2]
      push_cast
      rfl
  · by_cases hji : j < index.toNat
    · omega
    · have c2 : ¬ (j + 1 < r.N.toNat) := by omega
      simp only [if_neg hj, if_neg hji, if_neg c2]

/-- Witness of C3: removing slot 1 of a store of three particles, order kept. -/
theorem reb_remove_keepSorted_erases_witness :
    (reb_remove (reb_example_store 3) 1 1).2 = 1 ∧
      (reb_remove (reb_example_store 3) 1 1).1.N = (reb_example_store 3).N - 1 ∧
      (reb_remove (reb_example_store 3) 1 1).1.populated =
        (reb_example_store 3).populated.eraseIdx (1 : Int).toNat :=
  reb_remove_keepSorted_erases (reb_example_store 3) 1 1 (by decide) rfl (by decide)
    (by decide) (by decide)

/-- Counterexample to C4 as stated: with a single particle in the store the
out-of-range index 1 is reported as a success (return value 1, not 0). -/
theorem reb_remove_out_of_range_single_particle :
    (1 : Int) ≥ (reb_example_store 1).N ∧ (reb_remove (reb_example_store 1) 1 0).2 = 1 ∧
      (reb_remove (reb_example_store 1) 1 0).2 ≠ 0 := by
  refine ⟨by decide, ?_, ?_⟩ <;> simp [reb_remove, reb_example_store]

/-- C4 (amended). For every store with `N ≠ 1` and every index with
`index ≥ N`, `reb_remove` returns 0 and leaves the context, in particular `N`
and every particle slot, unchanged, for either value of `keepSorted`. -/
theorem reb_remove_index_too_large (r : reb_context) (index keepSorted : Int)
    (hN : r.N ≠ 1) (h : index ≥ r.N) :
    (reb_remove r index keepSorted).2 = 0 ∧
      (reb_remove r index keepSorted).1.N = r.N ∧
      (reb_remove r index keepSorted).1.particles = r.particles ∧
      (reb_remove r index keepSorted).1 = r := by
  unfold reb_remove
  rw [if_neg hN, if_pos h]
  exact ⟨rfl, rfl, rfl, rfl⟩

/-- Witness of the amended C4: index 3 in a store of three particles. -/
theorem reb_remove_index_too_large_witness :
    (reb_remove (reb_example_store 3) 3 0).2 = 0 ∧
      (reb_remove (reb_example_store 3) 3 0).1.N = (reb_example_store 3).N ∧
      (reb_remove (reb_example_store 3) 3 0).1.particles = (reb_example_store 3).particles ∧
      (reb_remove (reb_example_store 3) 3 0).1 = reb_example_store 3 :=
  reb_remove_index_too_large (reb_example_store 3) 3 0 (by decide) (by decide)

/-- Counterexample to C5 as stated: with chaos-indicator tracking active and a
single particle in the store, `reb_remove` returns 1, not 0. -/
theorem reb_remove_megno_single_particle :
    ({ reb_example_store 1 with N_megno := 1 } : reb_context).N_megno ≠ 0 ∧
      (reb_remove { reb_example_store 1 with N_megno := 1 } 0 0).2 = 1 ∧
      (reb_remove { reb_example_store 1 with N_megno := 1 } 0 0).2 ≠ 0 := by
  refine ⟨by decide, ?_, ?_⟩ <;> simp [reb_remove, reb_example_store]

/-- C5 (amended). For every store in which chaos-indicator tracking is active
(`N_megno ≠ 0`), every index and either value of `keepSorted`, `reb_remove`
leaves the context, in particular `N` and every particle slot, unchanged, and
it returns 0 whenever `N ≠ 1`. -/
theorem reb_remove_megno_active (r : reb_context) (index keepSorted : Int)
    (hm : r.N_megno ≠ 0) :
    (reb_remove r index keepSorted).1.N = r.N ∧
      (reb_remove r index keepSorted).1.particles = r.particles ∧
      (reb_remove r index keepSorted).1 = r ∧
      (r.N ≠ 1 → (reb_remove r index keepSorted).2 = 0) := by
  unfold reb_remove
  by_cases h1 : r.N = 1
  · rw [if_pos h1]
    exact ⟨rfl, rfl, rfl, fun h => absurd h1 h⟩
  · rw [if_neg h1]
    by_cases h2 : index ≥ r.N
    · rw [if_pos h2]
      exact ⟨rfl, rfl, rfl, fun _ => rfl⟩
    · rw [if_neg h2, if_pos hm]
      exact ⟨rfl, rfl, rfl, fun _ => rfl⟩

/-- Witness of the amended C5: tracking active in a store of three particles. -/
theorem reb_remove_megno_active_witness :
    (reb_remove { reb_example_store 3 with N_megno := 1 } 0 1).1.N = 3 ∧
      (reb_remove { reb_example_store 3 with N_megno := 1 } 0 1).2 = 0 :=
  ⟨(reb_remove_megno_active { reb_example_store 3 with N_megno := 1 } 0 1 (by decide)).1,
    (reb_remove_megno_active { reb_example_store 3 with N_megno := 1 } 0 1 (by decide)).2.2.2
      (by decide)⟩

/-- C6 (failing input). In the example box (`root_size = 1`, `root_nx = 2`,
`boxsize.x = 2`) the position `x = -7/2` is mapped to root box `-1`, while the
same position shifted by one box size, `x = -7/2 + 1 * 2`, is mapped to root
box `1`: the mapping is not periodic there. Every `double` operation on these
inputs is exact and no `int` operation overflows. -/
theorem reb_get_rootbox_not_periodic :
    reb_get_rootbox_for_particle reb_example_context (reb_example_particle (-7 / 2) 0) =
        some (-1) ∧
      reb_get_rootbox_for_particle reb_example_context
        (reb_example_particle (-7 / 2 + 1 * 2) 0) = some 1 := by
  constructor
  · exact reb_get_rootbox_for_particle_eval reb_example_context
      (reb_example_particle (-7 / 2) 0) (-1) 0 0 (-1)
      (by simp [reb_example_context]; norm_num)
      reb_example_axis_far_left reb_example_axis_unit reb_example_axis_unit (by decide)
  · exact reb_get_rootbox_for_particle_eval reb_example_context
      (reb_example_particle (-7 / 2 + 1 * 2) 0) 1 0 0 1
      (by simp [reb_example_context]; norm_num)
      reb_example_axis_left reb_example_axis_unit reb_example_axis_unit (by decide)

/-- C7. Starting from `max_radius = [0, 0]`, after `reb_add` has been called
with particles of non-negative radii in the given order, `max_radius[0]` is the
largest and `max_radius[1]` the second largest of these radii, counted with
multiplicity (0 where there are too few). -/
theorem reb_add_max_radius_two_largest (r : reb_context) (pts : List reb_particle)
    (hr : r.max_radius = (0, 0)) (hpts : ∀ p ∈ pts, 0 ≤ p.r) :
    (pts.foldl reb_add r).max_radius = reb_two_largest (pts.map (fun p => p.r)) := by
  induction pts using List.reverseRecOn with
  | nil => rw [List.foldl_nil, hr]; rfl
  | append_singleton ps p ih =>
    have hps : ∀ q ∈ ps, 0 ≤ q.r := fun q hq => hpts q (List.mem_append_left _ hq)
    have hp : 0 ≤ p.r := hpts p (List.mem_append_right _ (List.mem_singleton_self p))
    rw [List.foldl_append, List.foldl_cons, List.foldl_nil, reb_add_max_radius_eq, ih hps,
      List.map_append, List.map_singleton]
    symm
    apply reb_two_largest_append_singleton _ _ _ hp
    intro y hy
    obtain ⟨q, hq, rfl⟩ := List.mem_map.mp hy
    exact hps q hq

/-- Witness of C7, the example of the specification: radii `[0.1, 0.5, 0.2]`
added in that order yield `max_radius = [0.5, 0.2]`. -/
theorem reb_add_max_radius_two_largest_witness :
    ([reb_example_particle 0 (1 / 10), reb_example_particle 0 (1 / 2),
        reb_example_particle 0 (1 / 5)].foldl reb_add reb_example_context).max_radius =
      (1 / 2, 1 / 5) := by
  rw [reb_add_max_radius_two_largest reb_example_context _ rfl
    (by simp [reb_example_particle, reb_particle.zero])]
  simp [reb_two_largest, reb_example_particle, reb_particle.zero, List.insertionSort,
    List.orderedInsert]
  norm_num

/-- C8. For every context and every particle inside the box, `reb_add_local`
appends: afterwards `N` is the old `N` plus one, slot `old N` holds the
particle, and every slot below the old `N` holds what it held before. -/
theorem reb_add_local_appends (r : reb_context) (pt : reb_particle)
    (h : reb_boundary_particle_is_in_box r pt ≠ 0) :
    (reb_add_local r pt).N = r.N + 1 ∧ (reb_add_local r pt).particles r.N = pt ∧
      ∀ i : Int, i < r.N → (reb_add_local r pt).particles i = r.particles i := by
  rw [reb_add_local_N r pt h, reb_add_local_particles r pt h]
  refine ⟨rfl, Function.update_same _ _ _, ?_⟩
  intro i hi
  exact Function.update_noteq (by omega) _ _

/-- Witness of C8: a particle at the origin added to the empty example store. -/
theorem reb_add_local_appends_witness :
    (reb_add_local reb_example_context (reb_example_particle 0 1)).N =
        reb_example_context.N + 1 ∧
      (reb_add_local reb_example_context (reb_example_particle 0 1)).particles
        reb_example_context.N = reb_example_particle 0 1 ∧
      ∀ i : Int, i < reb_example_context.N →
        (reb_add_local reb_example_context (reb_example_particle 0 1)).particles i =
          reb_example_context.particles i :=
  reb_add_local_appends reb_example_context (reb_example_particle 0 1)
    (reb_example_particle_inside 0 1 (by norm_num) (by norm_num))


/-- C9. For every store with `N ≥ 2`, `N_megno = 0` and `0 ≤ index < N`,
`reb_remove` with `keepSorted = 0` returns 1, decrements `N` by one, writes the
former last particle (old slot `N - 1`) into slot `index` and leaves every other
slot unchanged, so the multiset of the remaining `N - 1` particles is the
original multiset minus the particle that was at `index`. -/
theorem reb_remove_unsorted_swaps_last (r : reb_context) (index : Int)
    (hN : 2 ≤ r.N) (hm : r.N_megno = 0) (h0 : 0 ≤ index) (h1 : index < r.N) :
    (reb_remove r index 0).2 = 1 ∧
      (reb_remove r index 0).1.N = r.N - 1 ∧
      (reb_remove r index 0).1.particles index = r.particles (r.N - 1) ∧
      (∀ i : Int, i ≠ index → (reb_remove r index 0).1.particles i = r.particles i) ∧
      ((reb_remove r index 0).1.populated : Multiset reb_particle) =
        (r.populated : Multiset reb_particle).erase (r.particles index) := by
  rw [reb_remove_success r index 0 (by omega) h1 hm]
  have hif : ¬ ((0 : Int) ≠ 0) := by simp
  rw [if_neg hif]
  refine ⟨rfl, rfl, Function.update_same _ _ _, fun i hi => Function.update_noteq hi _ _, ?_⟩
  obtain ⟨m, hm1⟩ : ∃ m : Nat, r.N = (m : Int) + 1 := ⟨(r.N - 1).toNat, by omega⟩
  obtain ⟨k, rfl⟩ : ∃ k : Nat, index = (k : Int) := ⟨index.toNat, by omega⟩
  have hkm : k ≤ m := by omega
  have hperm := reb_populated_swap_last r.particles m k hkm
  have hm2 : (r.N - 1).toNat = m := by omega
  have hm3 : r.N - 1 = (m : Int) := by omega
  have hm4 : r.N.toNat = m + 1 := by omega
  unfold reb_context.populated
  rw [hm2, hm3, hm4]
  rw [← Multiset.coe_eq_coe.mpr hperm, ← Multiset.cons_coe, Multiset.erase_cons_head]

/-- Witness of C9: removing slot 0 of a store of three particles, order not
kept. -/
theorem reb_remove_unsorted_swaps_last_witness :
    (reb_remove (reb_example_store 3) 0 0).2 = 1 ∧
      (reb_remove (reb_example_store 3) 0 0).1.N = (reb_example_store 3).N - 1 ∧
      (reb_remove (reb_example_store 3) 0 0).1.particles 0 =
        (reb_example_store 3).particles ((reb_example_store 3).N - 1) :=
  ⟨(reb_remove_unsorted_swaps_last (reb_example_store 3) 0 (by decide) rfl (by decide)
      (by decide)).1,
    (reb_remove_unsorted_swaps_last (reb_example_store 3) 0 (by decide) rfl (by decide)
      (by decide)).2.1,
    (reb_remove_unsorted_swaps_last (reb_example_store 3) 0 (by decide) rfl (by decide)
      (by decide)).2.2.1⟩

/-- C10. When the store holds exactly one particle (`N = 1`), `reb_remove`
returns 1 for every index and either value of `keepSorted` without decrementing
the count: the context, in particular `N = 1` and the particle array, is
unchanged. -/
theorem reb_remove_single_particle (r : reb_context) (index keepSorted : Int)
    (hN : r.N = 1) :
    (reb_remove r index keepSorted).2 = 1 ∧
      (reb_remove r index keepSorted).1.N = 1 ∧
      (reb_remove r index keepSorted).1.particles = r.particles ∧
      (reb_remove r index keepSorted).1 = r := by
  unfold reb_remove
  rw [if_pos hN]
  exact ⟨rfl, hN, rfl, rfl⟩

/-- Witness of C10: removing slot 0 of a store of one particle. -/
theorem reb_remove_single_particle_witness :
    (reb_remove (reb_example_store 1) 0 1).2 = 1 ∧
      (reb_remove (reb_example_store 1) 0 1).1.N = 1 ∧
      (reb_remove (reb_example_store 1) 0 1).1.particles = (reb_example_store 1).particles ∧
      (reb_remove (reb_example_store 1) 0 1).1 = reb_example_store 1 :=
  reb_remove_single_particle (reb_example_store 1) 0 1 rfl

/-- C12. The radius cache is ordered and monotone under adds: if
`max_radius[0] ≥ max_radius[1]` before `reb_add`, then the same holds
afterwards, and neither entry is smaller than before the call. -/
theorem reb_add_max_radius_ordered_monotone (r : reb_context) (pt : reb_particle)
    (h : r.max_radius.1 ≥ r.max_radius.2) :
    (reb_add r pt).max_radius.1 ≥ (reb_add r pt).max_radius.2 ∧
      (reb_add r pt).max_radius.1 ≥ r.max_radius.1 ∧
      (reb_add r pt).max_radius.2 ≥ r.max_radius.2 := by
  rw [reb_add_max_radius_eq]
  unfold reb_add_max_radius
  by_cases h0 : pt.r ≥ r.max_radius.1
  · rw [if_pos h0]
    exact ⟨h0, h0, h⟩
  · rw [if_neg h0]
    by_cases h1 : pt.r ≥ r.max_radius.2
    · rw [if_pos h1]
      exact ⟨le_of_lt (not_le.mp h0), le_refl _, h1⟩
    · rw [if_neg h1]
      exact ⟨h, le_refl _, le_refl _⟩

/-- Witness of C12: a particle of radius `1/2` added to the example store with
cache `(1, 0)`. -/
theorem reb_add_max_radius_ordered_monotone_witness :
    (reb_add reb_example_radius_store (reb_example_particle 0 (1 / 2))).max_radius.1 ≥
        (reb_add reb_example_radius_store (reb_example_particle 0 (1 / 2))).max_radius.2 ∧
      (reb_add reb_example_radius_store (reb_example_particle 0 (1 / 2))).max_radius.1 ≥
        reb_example_radius_store.max_radius.1 ∧
      (reb_add reb_example_radius_store (reb_example_particle 0 (1 / 2))).max_radius.2 ≥
        reb_example_radius_store.max_radius.2 :=
  reb_add_max_radius_ordered_monotone reb_example_radius_store
    (reb_example_particle 0 (1 / 2)) (by simp [reb_example_radius_store])

/-- C13. `allocatedN ≥ N` is an invariant of the store: if it holds before, it
holds after each of `reb_add`, `reb_add_local`, `reb_add_fixed`, `reb_remove`
(any index, any `keepSorted`) and `reb_remove_all`. -/
theorem reb_capacity_invariant (r : reb_context) (pt : reb_particle)
    (pos index keepSorted : Int) (h : r.allocatedN ≥ r.N) :
    (reb_add r pt).allocatedN ≥ (reb_add r pt).N ∧
      (reb_add_local r pt).allocatedN ≥ (reb_add_local r pt).N ∧
      (reb_add_fixed r pt pos).allocatedN ≥ (reb_add_fixed r pt pos).N ∧
      (reb_remove r index keepSorted).1.allocatedN ≥ (reb_remove r index keepSorted).1.N ∧
      (reb_remove_all r).allocatedN ≥ (reb_remove_all r).N := by
  refine ⟨?_, reb_add_local_capacity r pt h, ?_, ?_, le_refl _⟩
  · unfold reb_add
    exact reb_add_local_capacity _ pt h
  · rw [reb_add_fixed_N, reb_add_fixed_allocatedN]
    exact h
  · rw [reb_remove_allocatedN]
    exact le_trans (reb_remove_N_le r index keepSorted) h

/-- Witness of C13 at the store of three particles with capacity 128. -/
theorem reb_capacity_invariant_witness :
    (reb_add (reb_example_store 3) (reb_example_particle 0 1)).allocatedN ≥
        (reb_add (reb_example_store 3) (reb_example_particle 0 1)).N ∧
      (reb_remove (reb_example_store 3) 1 0).1.allocatedN ≥
        (reb_remove (reb_example_store 3) 1 0).1.N :=
  ⟨(reb_capacity_invariant (reb_example_store 3) (reb_example_particle 0 1) 0 1 0
      (by decide)).1,
    (reb_capacity_invariant (reb_example_store 3) (reb_example_particle 0 1) 0 1 0
      (by decide)).2.2.2.1⟩

/-- C14. `reb_remove` never touches capacity or the radius cache: `allocatedN`
and both entries of `max_radius` are the same after `reb_remove` as before,
whether the removal succeeds or fails. As a consequence the cache can exceed
the radius of every remaining particle: removing slot 0 of the example store
with radii 1 and 0 leaves a cached largest radius above every populated
slot. -/
theorem reb_remove_keeps_capacity_and_cache (r : reb_context) (index keepSorted : Int) :
    (reb_remove r index keepSorted).1.allocatedN = r.allocatedN ∧
      (reb_remove r index keepSorted).1.max_radius.1 = r.max_radius.1 ∧
      (reb_remove r index keepSorted).1.max_radius.2 = r.max_radius.2 ∧
      ((reb_remove reb_example_radius_store 0 0).2 = 1 ∧
        ∀ i : Int, 0 ≤ i → i < (reb_remove reb_example_radius_store 0 0).1.N →
          ((reb_remove reb_example_radius_store 0 0).1.particles i).r <
            (reb_remove reb_example_radius_store 0 0).1.max_radius.1) := by
  refine ⟨reb_remove_allocatedN r index keepSorted, ?_, ?_, ?_⟩
  · rw [reb_remove_max_radius]
  · rw [reb_remove_max_radius]
  · rw [reb_remove_success reb_example_radius_store 0 0 (by decide) (by decide) rfl]
    refine ⟨rfl, ?_⟩
    intro i h0 h1
    have h2 : i < 1 := h1
    have hi : i = 0 := by omega
    subst hi
    simp [reb_example_radius_store, reb_example_context, reb_example_particle,
      reb_particle.zero]

/-- C15. `reb_add_fixed` enforces containment and skips growth: for a particle
inside the box, slot `pos` holds the particle afterwards and `N`, `allocatedN`
and every other slot are unchanged; for a particle outside the box the whole
context, slot `pos` included, is unchanged. -/
theorem reb_add_fixed_frame (r : reb_context) (pt : reb_particle) (pos : Int) :
    (reb_boundary_particle_is_in_box r pt ≠ 0 →
        (reb_add_fixed r pt pos).particles pos = pt ∧
        (reb_add_fixed r pt pos).N = r.N ∧
        (reb_add_fixed r pt pos).allocatedN = r.allocatedN ∧
        ∀ i : Int, i ≠ pos → (reb_add_fixed r pt pos).particles i = r.particles i) ∧
      (reb_boundary_particle_is_in_box r pt = 0 → reb_add_fixed r pt pos = r) := by
  constructor
  · intro h
    rw [reb_add_fixed_particles r pt pos h, reb_add_fixed_N, reb_add_fixed_allocatedN]
    exact ⟨Function.update_same _ _ _, rfl, rfl,
      fun i hi => Function.update_noteq hi _ _⟩
  · exact reb_add_fixed_of_outside r pt pos

/-- Witness of C15: slot 1 of the store of three particles is overwritten by a
particle inside the box and kept for a particle outside. -/
theorem reb_add_fixed_frame_witness :
    (reb_add_fixed (reb_example_store 3) (reb_example_particle 0 1) 1).particles 1 =
        reb_example_particle 0 1 ∧
      reb_add_fixed (reb_example_store 3) (reb_example_particle 5 1) 1 = reb_example_store 3 :=
  ⟨((reb_add_fixed_frame (reb_example_store 3) (reb_example_particle 0 1) 1).1
      (reb_example_particle_inside 0 1 (by norm_num) (by norm_num))).1,
    (reb_add_fixed_frame (reb_example_store 3) (reb_example_particle 5 1) 1).2
      reb_example_particle_outside⟩

/-- C16. An add still proceeds while chaos-indicator tracking is active: `N`,
`allocatedN`, the particle array and `max_radius` after `reb_add` are the same
as for the context with `N_megno = 0`, `N_megno` itself is not modified, a
particle inside the box is appended whatever `N_megno` is, and the output on
`stderr` differs from that of the context with `N_megno = 0` by the MEGNO
warning only. -/
theorem reb_add_ignores_megno (r : reb_context) (pt : reb_particle) :
    (reb_add r pt).N = (reb_add { r with N_megno := 0 } pt).N ∧
      (reb_add r pt).allocatedN = (reb_add { r with N_megno := 0 } pt).allocatedN ∧
      (reb_add r pt).particles = (reb_add { r with N_megno := 0 } pt).particles ∧
      (reb_add r pt).max_radius = (reb_add { r with N_megno := 0 } pt).max_radius ∧
      (reb_add r pt).N_megno = r.N_megno ∧
      (reb_boundary_particle_is_in_box r pt ≠ 0 → (reb_add r pt).N = r.N + 1) ∧
      reb_add_stderr r pt =
        (if r.N_megno ≠ 0 then [reb_add_warning.after_megno_init] else []) ++
          reb_add_stderr { r with N_megno := 0 } pt := by
  have h0 : reb_add { r with N_megno := 0 } pt =
      { reb_add r pt with N_megno := 0 } := reb_add_set_N_megno r pt 0
  rw [h0]
  refine ⟨rfl, rfl, rfl, rfl, ?_, reb_add_N r pt, ?_⟩
  · unfold reb_add
    exact reb_add_local_N_megno _ pt
  · have hb : reb_boundary_particle_is_in_box { r with N_megno := 0 } pt =
        reb_boundary_particle_is_in_box r pt :=
      reb_boundary_particle_is_in_box_congr _ _ pt rfl
    unfold reb_add_stderr
    rw [hb]
    simp

/-- Witness of C16: with tracking active in the store of three particles, a
particle inside the box is still appended. -/
theorem reb_add_ignores_megno_witness :
    reb_boundary_particle_is_in_box { reb_example_store 3 with N_megno := 1 }
        (reb_example_particle 0 1) ≠ 0 ∧
      (reb_add { reb_example_store 3 with N_megno := 1 } (reb_example_particle 0 1)).N =
        ({ reb_example_store 3 with N_megno := 1 } : reb_context).N + 1 :=
  ⟨reb_example_particle_inside 0 1 (by norm_num) (by norm_num),
    (reb_add_ignores_megno { reb_example_store 3 with N_megno := 1 }
      (reb_example_particle 0 1)).2.2.2.2.2.1
      (reb_example_particle_inside 0 1 (by norm_num) (by norm_num))⟩

/-- C17. With the spatial partition seen as the record of indices handed to
`reb_tree_add_particle_to_tree`: an accepted `reb_add_local` inserts exactly
one index, the slot `old N` in which the particle was stored, when gravity or
collision is the tree variant, and inserts nothing otherwise; a rejected add
inserts nothing. -/
theorem reb_add_local_tree_insertion (r : reb_context) (pt : reb_particle) :
    (reb_boundary_particle_is_in_box r pt ≠ 0 →
        (r.gravity = reb_gravity.RB_GT_TREE ∨ r.collision = reb_collision.RB_CT_TREE) →
        (reb_add_local r pt).tree = r.tree ++ [r.N] ∧
          (reb_add_local r pt).particles r.N = pt) ∧
      (reb_boundary_particle_is_in_box r pt ≠ 0 →
        ¬ (r.gravity = reb_gravity.RB_GT_TREE ∨ r.collision = reb_collision.RB_CT_TREE) →
        (reb_add_local r pt).tree = r.tree) ∧
      (reb_boundary_particle_is_in_box r pt = 0 → (reb_add_local r pt).tree = r.tree) := by
  refine ⟨?_, ?_, ?_⟩
  · intro h ht
    rw [reb_add_local_tree_of_inside r pt h, if_pos ht, reb_add_local_particles r pt h]
    exact ⟨rfl, Function.update_same _ _ _⟩
  · intro h ht
    rw [reb_add_local_tree_of_inside r pt h, if_neg ht]
  · intro h
    rw [reb_add_local_of_outside r pt h]

/-- Witness of C17: in the store of three particles with tree collision search
an accepted add inserts index 3; without a tree variant it inserts nothing; a
rejected add inserts nothing. -/
theorem reb_add_local_tree_insertion_witness :
    (reb_add_local { reb_example_store 3 with collision := reb_collision.RB_CT_TREE }
        (reb_example_particle 0 1)).tree = [] ++ [3] ∧
      (reb_add_local (reb_example_store 3) (reb_example_particle 0 1)).tree = [] ∧
      (reb_add_local (reb_example_store 3) (reb_example_particle 5 1)).tree = [] :=
  ⟨((reb_add_local_tree_insertion
        { reb_example_store 3 with collision := reb_collision.RB_CT_TREE }
        (reb_example_particle 0 1)).1
      (reb_example_particle_inside 0 1 (by norm_num) (by norm_num)) (Or.inr rfl)).1,
    (reb_add_local_tree_insertion (reb_example_store 3) (reb_example_particle 0 1)).2.1
      (reb_example_particle_inside 0 1 (by norm_num) (by norm_num)) (by decide),
    (reb_add_local_tree_insertion (reb_example_store 3) (reb_example_particle 5 1)).2.2
      reb_example_particle_outside⟩

/-- C19. Under `N ≥ 2`, `N_megno = 0`, `0 ≤ index < N` and `allocatedN ≥ N`,
every array read and write performed by `reb_remove`, for either value of
`keepSorted`, addresses a slot in `[0, old N)`, hence inside the allocation;
the instrumented routine returns exactly what `reb_remove` returns. -/
theorem reb_remove_accesses_in_range (r : reb_context) (index keepSorted : Int)
    (hN : 2 ≤ r.N) (hm : r.N_megno = 0) (h0 : 0 ≤ index) (h1 : index < r.N)
    (ha : r.allocatedN ≥ r.N) :
    (reb_remove_traced r index keepSorted).1 = reb_remove r index keepSorted ∧
      ∀ a ∈ (reb_remove_traced r index keepSorted).2,
        0 ≤ a.slot ∧ a.slot < r.N ∧ a.slot < r.allocatedN := by
  refine ⟨reb_remove_traced_result r index keepSorted, ?_⟩
  unfold reb_remove_traced
  rw [if_neg (by omega), if_neg (by omega), if_neg (by simp [hm])]
  dsimp only
  by_cases hk : keepSorted ≠ 0
  · rw [if_pos hk]
    intro a hmem
    have := (reb_remove_shift_traced_spec _ r.particles index (r.N - 1) (le_refl _)).2 a hmem
    omega
  · rw [if_neg hk]
    intro a hmem
    simp only [List.mem_cons, List.mem_singleton, List.not_mem_nil, or_false] at hmem
    rcases hmem with hmem | hmem
    · subst hmem
      show 0 ≤ r.N - 1 ∧ r.N - 1 < r.N ∧ r.N - 1 < r.allocatedN
      omega
    · subst hmem
      show 0 ≤ index ∧ index < r.N ∧ index < r.allocatedN
      omega

/-- Witness of C19: removing slot 1 of the store of three particles, order
kept. -/
theorem reb_remove_accesses_in_range_witness :
    (reb_remove_traced (reb_example_store 3) 1 1).1 = reb_remove (reb_example_store 3) 1 1 ∧
      ∀ a ∈ (reb_remove_traced (reb_example_store 3) 1 1).2,
        0 ≤ a.slot ∧ a.slot < (reb_example_store 3).N ∧
          a.slot < (reb_example_store 3).allocatedN :=
  reb_remove_accesses_in_range (reb_example_store 3) 1 1 (by decide) rfl (by decide)
    (by decide) (by decide)

end Rebound
